import Mathlib

/-!
# Verification of the `sutro` EVM toolkit

A shallow embedding of the `sutro` repository (EVM bytecode analysis and
execution): the JSON-RPC hex helpers (`src/rpc/types/hex.rs`), the
`eth_sendTransaction` handler (`src/rpc/mod.rs`), and — modelled from the
specification where the interpreter/CFG sources are not part of the
repository snapshot — the concrete EVM interpreter and the CFG recoverer.
Machine words are `Nat` with explicit reduction modulo `2 ^ 256`; strings
are treated as their character lists (the inputs of interest are ASCII,
where Rust's byte indexing and character indexing agree).
-/

namespace Sutro

/-- Decidable equality for `Except` (used to evaluate the models on
concrete inputs). -/
instance {ε α : Type} [DecidableEq ε] [DecidableEq α] :
    DecidableEq (Except ε α) := fun a b =>
  match a, b with
  | .ok x, .ok y =>
      if h : x = y then isTrue (by rw [h])
      else isFalse (by intro hh; cases hh; exact h rfl)
  | .error x, .error y =>
      if h : x = y then isTrue (by rw [h])
      else isFalse (by intro hh; cases hh; exact h rfl)
  | .ok _, .error _ => isFalse (fun hh => Except.noConfusion hh)
  | .error _, .ok _ => isFalse (fun hh => Except.noConfusion hh)

/-! ## Hex digits and the `hex` crate's `decode` -/

/-- Value of a hexadecimal digit character (`0-9`, `a-f`, `A-F`),
`none` otherwise.  Mirrors `char::to_digit(16)` in Rust. -/
def hexDigit? (c : Char) : Option Nat :=
  if '0' ≤ c ∧ c ≤ '9' then some (c.toNat - '0'.toNat)
  else if 'a' ≤ c ∧ c ≤ 'f' then some (c.toNat - 'a'.toNat + 10)
  else if 'A' ≤ c ∧ c ≤ 'F' then some (c.toNat - 'A'.toNat + 10)
  else none

/-- `hex::decode` on a character list: consume the characters two at a
time, turning each pair of hex digits into one byte; fail (`none`) on a
character that is not a hex digit or on odd length.  Mirrors the `hex`
crate's `decode`, which the `eth_sendTransaction` handler calls; the
crate's two error cases (invalid character, odd length) are collapsed
into `none` since the handler immediately `unwrap`s. -/
def hexDecodeChars : List Char → Option (List Nat)
  | [] => some []
  | [_] => none
  | c1 :: c2 :: rest => do
      let h ← hexDigit? c1
      let l ← hexDigit? c2
      let bs ← hexDecodeChars rest
      pure ((h * 16 + l) :: bs)

/-- `hex::decode` on a `String`. -/
def hexDecode (s : String) : Option (List Nat) :=
  hexDecodeChars s.data

/-! ## `u64::from_str_radix(_, 16)` (Rust standard library) -/

/-- The kinds of `std::num::ParseIntError` the paths used here produce. -/
inductive IntErrorKind where
  | empty
  | invalidDigit
  | posOverflow
  | negOverflow
  deriving DecidableEq, Repr

/-- Accumulate hex digits into a value, failing on a non-digit.
The accumulator is exact (no intermediate truncation); the overflow
check happens at the end (equivalent to Rust's per-step `checked_mul` /
`checked_add` because the accumulator is monotone). -/
def parseHexDigits : List Char → Nat → Option Nat
  | [], acc => some acc
  | c :: cs, acc =>
      match hexDigit? c with
      | some d => parseHexDigits cs (acc * 16 + d)
      | none => none

/-- `u64::from_str_radix(s, 16)`: optional leading sign, at least one
digit, all characters hex digits, result within `u64` range (for a
leading `-` the only representable value is `0`). -/
def fromStrRadix16u64 (s : List Char) : Except IntErrorKind Nat :=
  match s with
  | [] => .error .empty
  | c :: rest =>
      let (neg, digits) :=
        if c = '+' then (false, rest)
        else if c = '-' then (true, rest)
        else (false, s)
      match digits with
      | [] => .error .empty
      | _ =>
          match parseHexDigits digits 0 with
          | none => .error .invalidDigit
          | some v =>
              if neg then
                if v = 0 then .ok 0 else .error .negOverflow
              else
                if v < 2 ^ 64 then .ok v else .error .posOverflow

/-! ## `Hexable` (src/rpc/types/hex.rs) -/

/-- `str::strip_prefix("0x").unwrap_or(str)`. -/
def strip0x (s : List Char) : List Char :=
  match s with
  | '0' :: 'x' :: rest => rest
  | _ => s

/-- Lower-case hex digit character for a value `< 16`. -/
def hexChar (d : Nat) : Char :=
  if d < 10 then Char.ofNat ('0'.toNat + d)
  else Char.ofNat ('a'.toNat + (d - 10))

/-- Minimal (no leading zero) lower-case hex digit string of `x`,
most significant digit first; `"0"` for `0`.  This is what Rust's
`format!("{:x}", x)` produces. -/
def hexRepr (x : Nat) : List Char :=
  if x = 0 then ['0'] else (Nat.digits 16 x).reverse.map hexChar

/-- `<u64 as Hexable>::to_hex`: `format!("{:#x}", self)` — a `0x` prefix
followed by the minimal lower-case hex representation. -/
def u64toHex (x : Nat) : List Char :=
  '0' :: 'x' :: hexRepr x

/-- `<u64 as Hexable>::from_hex`: strip an optional `0x` prefix, then
`u64::from_str_radix(_, 16)`. -/
def u64fromHex (s : List Char) : Except IntErrorKind Nat :=
  fromStrRadix16u64 (strip0x s)

/-- Modelled from the spec: `zkp_u256::U256::to_hex_string` (dependency
code, not in the repository) — a `0x` prefix followed by the value's 64
hex digits, zero-padded on the left (the repository's `to_hex`
immediately removes the prefix and the leading zeros, which is only
meaningful for a padded fixed-width rendering). -/
def u256toHexString (x : Nat) : List Char :=
  '0' :: 'x' :: (List.replicate (64 - (hexRepr x).length) '0' ++ hexRepr x)

/-- `<U256 as Hexable>::to_hex`: render via `to_hex_string`, drop the
`0x` prefix, trim leading zeros, keep at least one digit, re-attach the
prefix. -/
def u256toHex (x : Nat) : List Char :=
  let s := (u256toHexString x).drop 2
  let s := s.dropWhile (· = '0')
  let s := if s = [] then ['0'] else s
  '0' :: 'x' :: s

/-- Modelled from the spec: `zkp_u256::U256::from_hex_str` (dependency
code, not in the repository) — a total big-endian hexadecimal parse
reduced modulo `2 ^ 256`.  Its behaviour on non-hex characters is not
determined by the repository; such digits are read as `0` here — none of
the theorems below depend on that case. -/
def u256fromHexStr (s : List Char) : Nat :=
  (s.foldl (fun acc c => acc * 16 + (hexDigit? c).getD 0) 0) % 2 ^ 256

/-- `<U256 as Hexable>::from_hex`: strip an optional `0x` prefix and
wrap `from_hex_str`'s result in `Ok` — there is no error path. -/
def u256fromHex (s : List Char) : Except IntErrorKind Nat :=
  .ok (u256fromHexStr (strip0x s))

/-! ## The `eth_sendTransaction` handler (src/rpc/mod.rs) -/

/-- `serde_json::Value`, restricted to the shapes the handler inspects
(numbers are irrelevant to it and carried as `Nat`). -/
inductive Json where
  | null
  | bool (b : Bool)
  | num (n : Nat)
  | str (s : List Char)
  | arr (xs : List Json)
  | obj (fields : List (List Char × Json))

/-- `jsonrpc_core::Params`. -/
inductive Params where
  | none
  | map (fields : List (List Char × Json))
  | array (xs : List Json)

/-- `serde_json::Map`'s `Index` implementation: a missing key yields
`Value::Null` (it does not panic). -/
def objIndex (fields : List (List Char × Json)) (key : List Char) : Json :=
  match fields.find? (fun f => f.1 = key) with
  | some f => f.2
  | none => .null

/-- Outcome of the handler on one request: either a Rust panic
(`panic!()`, an out-of-bounds index, or an `unwrap` of `Err`), or the
successfully decoded contract bytes.  What the handler does after the
decode (building and printing the two `Program`s, code not present in
the repository snapshot) neither inspects the request further nor can
alter which of these two outcomes occurred, so it is abstracted away. -/
inductive HandlerOutcome where
  | panicked
  | decoded (bytes : List Nat)
  deriving DecidableEq, Repr

/-- The `eth_sendTransaction` closure: require `Params::Array`, take
element `0` (a panic when the array is empty), require it to be an
object, index its `"data"` field, require a string, slice off the first
two characters (`&data[2..]`, a panic when the string is shorter), and
`hex::decode(..).unwrap()` the remainder. -/
def ethSendTransaction (params : Params) : HandlerOutcome :=
  match params with
  | .array xs =>
      match xs.head? with
      | none => .panicked
      | some first =>
          match first with
          | .obj fields =>
              match objIndex fields ['d', 'a', 't', 'a'] with
              | .str data =>
                  if data.length < 2 then .panicked
                  else
                    match hexDecodeChars (data.drop 2) with
                    | none => .panicked
                    | some bytes => .decoded bytes
              | _ => .panicked
          | _ => .panicked
  | _ => .panicked

/-! ## Shared byte/word utilities -/

/-- The EVM word modulus. -/
def WORD : Nat := 2 ^ 256

/-- Big-endian byte list to number. -/
def beBytesToNat (bs : List Nat) : Nat :=
  bs.foldl (fun a b => a * 256 + b) 0

/-- Read `n` bytes starting at `off`, zero-filling past the end
(EVM zero-padding convention for code immediates, calldata and
memory). -/
def listRead (l : List Nat) (off n : Nat) : List Nat :=
  (List.range n).map fun i => ((l.get? (off + i)).getD 0)

/-- Immediate byte length of an opcode (nonzero only for
`PUSH1..PUSH32`, bytes `0x60..0x7f`). -/
def pushLen (b : Nat) : Nat :=
  if 0x60 ≤ b ∧ b ≤ 0x7f then b - 0x5f else 0

/-- Encoded length of the instruction with opcode byte `b`. -/
def instLen (b : Nat) : Nat := 1 + pushLen b

/-- The immediate value of a PUSH at `pc`: the following `n` bytes,
big-endian, zero-padded past the end of code. -/
def immVal (code : List Nat) (pc n : Nat) : Nat :=
  beBytesToNat (listRead code (pc + 1) n)

/-! ## The concrete interpreter

Modelled from the spec: the `interpreter`/`evm` modules referenced by
`src/main.rs` are not part of the repository snapshot, so §3 and §4.4 of
the specification are followed: a stack machine over 256-bit unsigned
words (`Nat` reduced mod `2 ^ 256`), byte-addressable zero-initialized
memory growing in 32-byte words, a storage overlay read-through to the
state provider, a monotonically decreasing gas meter with approximate
per-opcode base costs, and `ExecutionResult ∈ {Return, Revert, Halt}`.
The model implements the opcode subset exercised by the theorems below
(arithmetic, comparison, bitwise, memory, storage, jumps, push/dup/swap,
environment reads, return/revert); remaining byte values behave as
undefined opcodes, and the call-family nesting of §4.4 is out of the
model's scope (all properties proved here concern a single frame). -/

/-- A 256-bit word for the timestamp (spec §3 Block Info). -/
structure BlockInfo where
  timestamp : Nat
  deriving DecidableEq, Repr

/-- Spec §3 Transaction Info: origin and gas price. -/
structure TransactionInfo where
  origin : Nat
  gasPrice : Nat
  deriving DecidableEq, Repr

/-- Spec §6: `call_info` carries sender, target address, value,
available gas and input bytes; the executing code is part of the call
context (§3). -/
structure CallInfo where
  sender : Nat
  address : Nat
  callValue : Nat
  initialGas : Nat
  input : List Nat
  code : List Nat
  deriving DecidableEq, Repr

/-- Everything an evaluation reads but never writes: the state
provider's storage view and the block/transaction/call context. -/
structure EvalCtx where
  storage : Nat → Nat
  block : BlockInfo
  tx : TransactionInfo
  call : CallInfo

/-- Spec §7 execution halts. -/
inductive FailureKind where
  | StackUnderflow
  | StackOverflow
  | OutOfGas
  | InvalidOpcode
  | InvalidJump
  deriving DecidableEq, Repr

/-- Spec §4.4: `ExecutionResult ∈ {Return(bytes), Revert(bytes),
Halt(FailureKind)}`. -/
inductive ExecutionResult where
  | Return (bytes : List Nat)
  | Revert (bytes : List Nat)
  | Halt (kind : FailureKind)
  deriving DecidableEq, Repr

/-- The gas-free part of one frame's interpreter state: concrete stack
(top first), byte memory, program counter, storage overlay. -/
structure Machine where
  stack : List Nat
  mem : List Nat
  pc : Nat
  overlay : List (Nat × Nat)
  deriving DecidableEq, Repr

/-- One frame's full interpreter state: machine plus remaining gas. -/
structure MState where
  m : Machine
  gas : Nat
  deriving DecidableEq, Repr

/-- Stack arity (inputs consumed, outputs produced) of the opcodes the
interpreter model implements; `none` means the byte executes as an
undefined opcode. -/
def interpArity (b : Nat) : Option (Nat × Nat) :=
  if b = 0x00 then some (0, 0)
  else if b = 0x01 ∨ b = 0x02 ∨ b = 0x03 ∨ b = 0x04 ∨ b = 0x06 then some (2, 1)
  else if b = 0x10 ∨ b = 0x11 ∨ b = 0x14 then some (2, 1)
  else if b = 0x15 ∨ b = 0x19 then some (1, 1)
  else if b = 0x16 ∨ b = 0x17 ∨ b = 0x18 then some (2, 1)
  else if b = 0x30 ∨ b = 0x32 ∨ b = 0x33 ∨ b = 0x34 ∨ b = 0x36 ∨ b = 0x3a ∨ b = 0x42 then
    some (0, 1)
  else if b = 0x35 then some (1, 1)
  else if b = 0x50 then some (1, 0)
  else if b = 0x51 then some (1, 1)
  else if b = 0x52 ∨ b = 0x53 then some (2, 0)
  else if b = 0x54 then some (1, 1)
  else if b = 0x55 then some (2, 0)
  else if b = 0x56 then some (1, 0)
  else if b = 0x57 then some (2, 0)
  else if b = 0x58 ∨ b = 0x59 ∨ b = 0x5a then some (0, 1)
  else if b = 0x5b then some (0, 0)
  else if 0x60 ≤ b ∧ b ≤ 0x7f then some (0, 1)
  else if 0x80 ≤ b ∧ b ≤ 0x8f then some (b - 0x7f, b - 0x7e)
  else if 0x90 ≤ b ∧ b ≤ 0x9f then some (b - 0x8e, b - 0x8e)
  else if b = 0xf3 ∨ b = 0xfd then some (2, 0)
  else none

/-- Approximate per-opcode base gas cost (spec §1 non-goals allow an
approximate schedule); every non-terminating opcode costs at least 1
unit, so gas bounds the number of steps. -/
def gasCost (b : Nat) : Nat :=
  if b = 0x00 ∨ b = 0xf3 ∨ b = 0xfd then 0
  else if b = 0x5b then 1
  else if b = 0x02 ∨ b = 0x04 ∨ b = 0x06 then 5
  else if b = 0x54 then 200
  else if b = 0x55 then 5000
  else if b = 0x56 then 8
  else if b = 0x57 then 10
  else if b = 0x58 ∨ b = 0x59 ∨ b = 0x5a ∨ b = 0x30 ∨ b = 0x32 ∨ b = 0x33 ∨ b = 0x34
          ∨ b = 0x36 ∨ b = 0x3a ∨ b = 0x42 then 2
  else 3

/-- Grow memory (zero-filled) to cover `n` bytes, rounded up to a
32-byte word boundary (spec §3: memory expands in 32-byte words). -/
def grow32 (mem : List Nat) (n : Nat) : List Nat :=
  if mem.length < ((n + 31) / 32) * 32 then
    mem ++ List.replicate (((n + 31) / 32) * 32 - mem.length) 0
  else mem

/-- Byte `i` (big-endian, `i < 32`) of the 256-bit word `v`. -/
def wordByte (v i : Nat) : Nat := v / 256 ^ (31 - i) % 256

/-- `MSTORE`: write the 32 bytes of `v` big-endian at `off`, growing
memory to cover the touched range. -/
def memWriteWord (mem : List Nat) (off v : Nat) : List Nat :=
  (List.range 32).foldl (fun acc i => acc.set (off + i) (wordByte v i)) (grow32 mem (off + 32))

/-- `MSTORE8`: write one byte. -/
def memWrite8 (mem : List Nat) (off v : Nat) : List Nat :=
  (grow32 mem (off + 1)).set off (v % 256)

/-- `MLOAD`: read a 32-byte big-endian word (zero-filled). -/
def memReadWord (mem : List Nat) (off : Nat) : Nat :=
  beBytesToNat (listRead mem off 32)

/-- First overlay write for key `k`, if any. -/
def overlayGet (ov : List (Nat × Nat)) (k : Nat) : Option Nat :=
  (ov.find? (fun p => p.1 = k)).map (·.2)

/-- Result of executing one opcode's effect on the gas-free machine. -/
inductive ExecOut where
  | next (m : Machine)
  | done (res : ExecutionResult) (m : Machine)

/-- Result of one full interpreter step. -/
inductive StepOut where
  | next (st : MState)
  | done (res : ExecutionResult) (st : MState)

/-- Pop two words, push `f top second`, advance. -/
def binOp (m : Machine) (f : Nat → Nat → Nat) : ExecOut :=
  match m.stack with
  | a :: c :: rest => .next { m with stack := f a c :: rest, pc := m.pc + 1 }
  | _ => .done (.Halt .StackUnderflow) m

/-- Pop one word, push `f top`, advance. -/
def unOp (m : Machine) (f : Nat → Nat) : ExecOut :=
  match m.stack with
  | a :: rest => .next { m with stack := f a :: rest, pc := m.pc + 1 }
  | _ => .done (.Halt .StackUnderflow) m

/-- Push a value (reduced into word range), advancing `k` bytes. -/
def pushAdv (m : Machine) (v k : Nat) : ExecOut :=
  .next { m with stack := v % WORD :: m.stack, pc := m.pc + k }

/-- The effect of the (defined) opcode `b` on the machine, after gas
accounting; `g` is the gas remaining after the deduction (read by the
`GAS` opcode).  Arity is re-checked structurally by the pattern
matches; the underflow fallbacks are unreachable under `step`'s arity
guard. -/
def execOp (ctx : EvalCtx) (b g : Nat) (m : Machine) : ExecOut :=
  if b = 0x00 then .done (.Return []) m
  else if b = 0x01 then binOp m fun a c => (a + c) % WORD
  else if b = 0x02 then binOp m fun a c => (a * c) % WORD
  else if b = 0x03 then binOp m fun a c => (WORD + a - c) % WORD
  else if b = 0x04 then binOp m fun a c => if c = 0 then 0 else a / c
  else if b = 0x06 then binOp m fun a c => if c = 0 then 0 else a % c
  else if b = 0x10 then binOp m fun a c => if a < c then 1 else 0
  else if b = 0x11 then binOp m fun a c => if c < a then 1 else 0
  else if b = 0x14 then binOp m fun a c => if a = c then 1 else 0
  else if b = 0x15 then unOp m fun a => if a = 0 then 1 else 0
  else if b = 0x16 then binOp m (· &&& ·)
  else if b = 0x17 then binOp m (· ||| ·)
  else if b = 0x18 then binOp m (· ^^^ ·)
  else if b = 0x19 then unOp m fun a => (WORD - 1) ^^^ a
  else if b = 0x30 then pushAdv m ctx.call.address 1
  else if b = 0x32 then pushAdv m ctx.tx.origin 1
  else if b = 0x33 then pushAdv m ctx.call.sender 1
  else if b = 0x34 then pushAdv m ctx.call.callValue 1
  else if b = 0x35 then unOp m fun i => beBytesToNat (listRead ctx.call.input i 32)
  else if b = 0x36 then pushAdv m ctx.call.input.length 1
  else if b = 0x3a then pushAdv m ctx.tx.gasPrice 1
  else if b = 0x42 then pushAdv m ctx.block.timestamp 1
  else if b = 0x50 then
    match m.stack with
    | _ :: rest => .next { m with stack := rest, pc := m.pc + 1 }
    | _ => .done (.Halt .StackUnderflow) m
  else if b = 0x51 then
    match m.stack with
    | off :: rest =>
        .next { m with stack := memReadWord m.mem off :: rest,
                       mem := grow32 m.mem (off + 32), pc := m.pc + 1 }
    | _ => .done (.Halt .StackUnderflow) m
  else if b = 0x52 then
    match m.stack with
    | off :: v :: rest =>
        .next { m with stack := rest, mem := memWriteWord m.mem off v, pc := m.pc + 1 }
    | _ => .done (.Halt .StackUnderflow) m
  else if b = 0x53 then
    match m.stack with
    | off :: v :: rest =>
        .next { m with stack := rest, mem := memWrite8 m.mem off v, pc := m.pc + 1 }
    | _ => .done (.Halt .StackUnderflow) m
  else if b = 0x54 then
    match m.stack with
    | k :: rest =>
        match overlayGet m.overlay k with
        | some v => .next { m with stack := v % WORD :: rest, pc := m.pc + 1 }
        | none =>
            let v := ctx.storage k % WORD
            .next { m with stack := v :: rest, overlay := (k, v) :: m.overlay, pc := m.pc + 1 }
    | _ => .done (.Halt .StackUnderflow) m
  else if b = 0x55 then
    match m.stack with
    | k :: v :: rest =>
        .next { m with stack := rest, overlay := (k, v) :: m.overlay, pc := m.pc + 1 }
    | _ => .done (.Halt .StackUnderflow) m
  else if b = 0x56 then
    match m.stack with
    | d :: rest =>
        if ctx.call.code.get? d = some 0x5b then .next { m with stack := rest, pc := d }
        else .done (.Halt .InvalidJump) { m with stack := rest }
    | _ => .done (.Halt .StackUnderflow) m
  else if b = 0x57 then
    match m.stack with
    | d :: c :: rest =>
        if c = 0 then .next { m with stack := rest, pc := m.pc + 1 }
        else if ctx.call.code.get? d = some 0x5b then .next { m with stack := rest, pc := d }
        else .done (.Halt .InvalidJump) { m with stack := rest }
    | _ => .done (.Halt .StackUnderflow) m
  else if b = 0x58 then pushAdv m m.pc 1
  else if b = 0x59 then pushAdv m m.mem.length 1
  else if b = 0x5a then pushAdv m g 1
  else if b = 0x5b then .next { m with pc := m.pc + 1 }
  else if 0x60 ≤ b ∧ b ≤ 0x7f then
    pushAdv m (immVal ctx.call.code m.pc (pushLen b)) (instLen b)
  else if 0x80 ≤ b ∧ b ≤ 0x8f then
    match m.stack.get? (b - 0x80) with
    | some v => .next { m with stack := v :: m.stack, pc := m.pc + 1 }
    | none => .done (.Halt .StackUnderflow) m
  else if 0x90 ≤ b ∧ b ≤ 0x9f then
    match m.stack.get? 0, m.stack.get? (b - 0x8f) with
    | some a, some c =>
        .next { m with stack := (m.stack.set 0 c).set (b - 0x8f) a, pc := m.pc + 1 }
    | _, _ => .done (.Halt .StackUnderflow) m
  else if b = 0xf3 then
    match m.stack with
    | off :: sz :: _ => .done (.Return (listRead m.mem off sz)) m
    | _ => .done (.Halt .StackUnderflow) m
  else if b = 0xfd then
    match m.stack with
    | off :: sz :: _ => .done (.Revert (listRead m.mem off sz)) m
    | _ => .done (.Halt .StackUnderflow) m
  else .done (.Halt .InvalidOpcode) m

/-- The opcode byte at the current program counter. -/
def fetchOp (ctx : EvalCtx) (st : MState) : Option Nat :=
  ctx.call.code.get? st.m.pc

/-- One interpreter step (spec §4.4, §4.4 gas accounting and §7 halts):
fetch (running off the end of code is an implicit `STOP`), reject
undefined opcodes, deduct the base cost (insufficient gas halts with
`OutOfGas` before the opcode's effect), check stack underflow and
overflow past 1024, then apply the opcode's effect. -/
def step (ctx : EvalCtx) (st : MState) : StepOut :=
  match fetchOp ctx st with
  | none => .done (.Return []) st
  | some b =>
    match interpArity b with
    | none => .done (.Halt .InvalidOpcode) st
    | some io =>
      if st.gas < gasCost b then .done (.Halt .OutOfGas) st
      else
        if st.m.stack.length < io.1 then
          .done (.Halt .StackUnderflow) ⟨st.m, st.gas - gasCost b⟩
        else if st.m.stack.length - io.1 + io.2 > 1024 then
          .done (.Halt .StackOverflow) ⟨st.m, st.gas - gasCost b⟩
        else
          match execOp ctx b (st.gas - gasCost b) st.m with
          | .next m2 => .next ⟨m2, st.gas - gasCost b⟩
          | .done r m2 => .done r ⟨m2, st.gas - gasCost b⟩

/-- Iterate `step` until the frame terminates; `none` on fuel
exhaustion (with fuel `initial gas + 1` this is unreachable, since
every continuing step strictly decreases gas). -/
def runFrame (ctx : EvalCtx) : Nat → MState → Option (ExecutionResult × MState)
  | 0, _ => none
  | fuel + 1, st =>
      match step ctx st with
      | .done r st2 => some (r, st2)
      | .next st2 => runFrame ctx fuel st2

/-- The fresh state of a frame: empty stack, empty memory, `pc = 0`,
empty overlay, the call's gas. -/
def initState (ctx : EvalCtx) : MState :=
  ⟨⟨[], [], 0, []⟩, ctx.call.initialGas⟩

/-- The storage view observable after the frame: the frame's overlay
writes layered over the provider when it returned normally; on a revert
or an exceptional halt the overlay is discarded entirely (spec §3). -/
def commit (ctx : EvalCtx) (res : ExecutionResult) (st : MState) : Nat → Nat :=
  match res with
  | .Return _ => fun k => (overlayGet st.m.overlay k).getD (ctx.storage k)
  | _ => ctx.storage

/-- `evaluate` plus the post-frame observable storage view. -/
def evaluateFull (stateProvider : Nat → Nat) (blockInfo : BlockInfo)
    (transactionInfo : TransactionInfo) (callInfo : CallInfo) :
    ExecutionResult × (Nat → Nat) :=
  let ctx : EvalCtx := ⟨stateProvider, blockInfo, transactionInfo, callInfo⟩
  match runFrame ctx (callInfo.initialGas + 1) (initState ctx) with
  | some (r, st) => (r, commit ctx r st)
  | none => (.Halt .OutOfGas, stateProvider)

/-- Spec §4.4 public operation:
`evaluate(state_provider, block_info, transaction_info, call_info) ->
ExecutionResult`. -/
def evaluate (stateProvider : Nat → Nat) (blockInfo : BlockInfo)
    (transactionInfo : TransactionInfo) (callInfo : CallInfo) : ExecutionResult :=
  (evaluateFull stateProvider blockInfo transactionInfo callInfo).1

/-! ## Decoder, block builder and CFG recoverer

Modelled from the spec (§2, §4.1–§4.3): the `evm` analysis modules
referenced by `src/main.rs` are not part of the repository snapshot.
The decoder turns bytes into instructions with inlined, zero-padded
PUSH immediates; the block builder cuts a basic block at the first
terminator or at a JUMPDEST boundary; the recoverer runs a DFS over
block offsets with a visited set, abstractly interpreting a symbolic
Known/Unknown stack to resolve jump targets, and propagates
`InvalidJump` out of the whole recovery (§7). -/

/-- A decoded instruction: byte offset, opcode byte, and the inlined
immediate (meaningful only for PUSH opcodes, `0` otherwise). -/
structure Inst where
  off : Nat
  opb : Nat
  imm : Nat
  deriving DecidableEq, Repr

/-- Spec §3 Block terminator kinds. -/
inductive TermKind where
  | Jump
  | JumpI
  | Stop
  | Return
  | Revert
  | SelfDestruct
  | InvalidOpcode
  | FallOff
  deriving DecidableEq, Repr

/-- Full static opcode table (spec §3 Opcode): stack arity by byte
value for every defined EVM opcode; `none` is the undefined
sentinel. -/
def opStack (b : Nat) : Option (Nat × Nat) :=
  if b = 0x00 then some (0, 0)
  else if 0x01 ≤ b ∧ b ≤ 0x07 then some (2, 1)
  else if b = 0x08 ∨ b = 0x09 then some (3, 1)
  else if b = 0x0a ∨ b = 0x0b then some (2, 1)
  else if 0x10 ≤ b ∧ b ≤ 0x14 then some (2, 1)
  else if b = 0x15 then some (1, 1)
  else if 0x16 ≤ b ∧ b ≤ 0x18 then some (2, 1)
  else if b = 0x19 then some (1, 1)
  else if 0x1a ≤ b ∧ b ≤ 0x1d then some (2, 1)
  else if b = 0x20 then some (2, 1)
  else if b = 0x30 then some (0, 1)
  else if b = 0x31 then some (1, 1)
  else if 0x32 ≤ b ∧ b ≤ 0x34 then some (0, 1)
  else if b = 0x35 then some (1, 1)
  else if b = 0x36 then some (0, 1)
  else if b = 0x37 then some (3, 0)
  else if b = 0x38 then some (0, 1)
  else if b = 0x39 then some (3, 0)
  else if b = 0x3a then some (0, 1)
  else if b = 0x3b then some (1, 1)
  else if b = 0x3c then some (4, 0)
  else if b = 0x3d then some (0, 1)
  else if b = 0x3e then some (3, 0)
  else if b = 0x3f then some (1, 1)
  else if b = 0x40 then some (1, 1)
  else if 0x41 ≤ b ∧ b ≤ 0x47 then some (0, 1)
  else if b = 0x50 then some (1, 0)
  else if b = 0x51 then some (1, 1)
  else if b = 0x52 ∨ b = 0x53 then some (2, 0)
  else if b = 0x54 then some (1, 1)
  else if b = 0x55 then some (2, 0)
  else if b = 0x56 then some (1, 0)
  else if b = 0x57 then some (2, 0)
  else if 0x58 ≤ b ∧ b ≤ 0x5a then some (0, 1)
  else if b = 0x5b then some (0, 0)
  else if 0x60 ≤ b ∧ b ≤ 0x7f then some (0, 1)
  else if 0x80 ≤ b ∧ b ≤ 0x8f then some (b - 0x7f, b - 0x7e)
  else if 0x90 ≤ b ∧ b ≤ 0x9f then some (b - 0x8e, b - 0x8e)
  else if 0xa0 ≤ b ∧ b ≤ 0xa4 then some (b - 0x9e, 0)
  else if b = 0xf0 then some (3, 1)
  else if b = 0xf1 ∨ b = 0xf2 then some (7, 1)
  else if b = 0xf3 then some (2, 0)
  else if b = 0xf4 then some (6, 1)
  else if b = 0xf5 then some (4, 1)
  else if b = 0xfa then some (6, 1)
  else if b = 0xfd then some (2, 0)
  else if b = 0xff then some (1, 0)
  else none

/-- Terminator kind of an opcode byte, `none` for an opcode that falls
through to the next instruction.  Undefined bytes terminate a block as
`InvalidOpcode` (spec §7: recorded as undefined, fatal only when
executed). -/
def termOf (b : Nat) : Option TermKind :=
  if b = 0x56 then some .Jump
  else if b = 0x57 then some .JumpI
  else if b = 0x00 then some .Stop
  else if b = 0xf3 then some .Return
  else if b = 0xfd then some .Revert
  else if b = 0xff then some .SelfDestruct
  else if opStack b = none then some .InvalidOpcode
  else none

/-- Decode one block (spec §4.2): instructions from `pc` until the
first terminator (included), or until a JUMPDEST boundary after the
start / the end of code (`FallOff`, the boundary instruction excluded).
Returns the instructions, the terminator kind, and the offset past the
block.  `first` records whether we are still at the block's first
instruction (a leading JUMPDEST belongs to the block). -/
def buildBlockAux (code : List Nat) : Nat → Nat → Bool → List Inst × TermKind × Nat
  | 0, pc, _ => ([], .FallOff, pc)
  | fuel + 1, pc, first =>
      match code.get? pc with
      | none => ([], .FallOff, pc)
      | some b =>
          if b = 0x5b ∧ first = false then ([], .FallOff, pc)
          else
            let i : Inst := ⟨pc, b, immVal code pc (pushLen b)⟩
            match termOf b with
            | some t => ([i], t, pc + instLen b)
            | none =>
                let r := buildBlockAux code fuel (pc + instLen b) false
                (i :: r.1, r.2.1, r.2.2)

/-- Decode the block starting at `pc` (fuel `code.length + 1` always
suffices: each decoded instruction advances `pc` by at least one and
decoding stops past the end of code). -/
def buildBlock (code : List Nat) (pc : Nat) : List Inst × TermKind × Nat :=
  buildBlockAux code (code.length + 1) pc true

/-- Spec §3 symbolic value: statically known word or explicitly
unknown. -/
inductive SymVal where
  | Known (v : Nat)
  | Unknown
  deriving DecidableEq, Repr

/-- Symbolic stack, top first. -/
abbrev SymStack := List SymVal

/-- Abstract effect of one instruction on the symbolic stack (spec
§4.3 step 2): PUSH pushes `Known imm`; DUP/SWAP/POP rearrange tags;
JUMPDEST is a no-op; every other opcode pops its declared inputs and
pushes `Unknown` for each declared output.  Positions missing from a
short stack are treated as `Unknown`. -/
def simInst (stk : SymStack) (i : Inst) : SymStack :=
  let b := i.opb
  if 0x60 ≤ b ∧ b ≤ 0x7f then .Known i.imm :: stk
  else if 0x80 ≤ b ∧ b ≤ 0x8f then ((stk.get? (b - 0x80)).getD .Unknown) :: stk
  else if 0x90 ≤ b ∧ b ≤ 0x9f then
    let a := (stk.get? 0).getD .Unknown
    let c := (stk.get? (b - 0x8f)).getD .Unknown
    (stk.set 0 c).set (b - 0x8f) a
  else if b = 0x50 then stk.drop 1
  else if b = 0x5b then stk
  else
    match opStack b with
    | some io => List.replicate io.2 .Unknown ++ stk.drop io.1
    | none => stk

/-- A block's non-terminator instructions (the terminator's pops are
handled by the recoverer itself). -/
def blockBody (insts : List Inst) (t : TermKind) : List Inst :=
  match t with
  | .FallOff => insts
  | _ => insts.dropLast

/-- Pop one symbolic value (an empty analysis stack yields
`Unknown`). -/
def symPop (stk : SymStack) : SymVal × SymStack :=
  ((stk.head?).getD .Unknown, stk.drop 1)

/-- Spec §3 CFG edge kinds. -/
inductive EdgeKind where
  | Unconditional
  | BranchTaken
  | BranchNotTaken
  deriving DecidableEq, Repr

/-- The recovered CFG: block set keyed by start offset, resolved
edges, and the offsets of blocks whose dynamic jump target could not be
determined statically (`UnresolvedJump`, spec §7 analysis limits). -/
structure Cfg where
  blocks : List (Nat × List Inst × TermKind)
  edges : List (Nat × Nat × EdgeKind)
  unresolved : List Nat
  deriving DecidableEq, Repr

/-- Spec §7 structural CFG error. -/
inductive RecoverError where
  | InvalidJump
  deriving DecidableEq, Repr

/-- The CFG with the block decoded at `pc` recorded. -/
def afterBlock (code : List Nat) (cfg : Cfg) (pc : Nat) : Cfg :=
  { cfg with blocks := (pc, (buildBlock code pc).1, (buildBlock code pc).2.1) :: cfg.blocks }

/-- The symbolic stack after the body of the block at `pc`. -/
def blockOutStack (code : List Nat) (pc : Nat) (stk : SymStack) : SymStack :=
  (blockBody (buildBlock code pc).1 (buildBlock code pc).2.1).foldl simInst stk

/-- DFS over block offsets (spec §4.3).  The visited set is the set of
offsets already present in `cfg.blocks` (first-reaching stack wins).
Step 1: at `pc ≠ 0` the block must begin with a JUMPDEST, else the
whole recovery fails with `InvalidJump`.  Step 2: simulate the block's
body symbolically.  Step 3: JUMP recurses into a Known target and
marks the block unresolved on Unknown; JUMPI explores the taken branch
when Known (marking unresolved otherwise) and always explores the
fallthrough; the remaining terminators have no successors. -/
def recoverAux (code : List Nat) : Nat → Cfg → Nat → SymStack → Except RecoverError Cfg
  | 0, cfg, _, _ => .ok cfg
  | fuel + 1, cfg, pc, stk =>
      if cfg.blocks.any (fun blk => blk.1 = pc) then .ok cfg
      else if pc ≠ 0 ∧ code.get? pc ≠ some 0x5b then .error .InvalidJump
      else
        match (buildBlock code pc).2.1 with
        | .Jump =>
            match (symPop (blockOutStack code pc stk)).1 with
            | .Known d =>
                recoverAux code fuel
                  { afterBlock code cfg pc with
                    edges := (pc, d, .Unconditional) :: cfg.edges }
                  d (symPop (blockOutStack code pc stk)).2
            | .Unknown =>
                .ok { afterBlock code cfg pc with unresolved := pc :: cfg.unresolved }
        | .JumpI =>
            match
              (match (symPop (blockOutStack code pc stk)).1 with
               | .Known d =>
                   recoverAux code fuel
                     { afterBlock code cfg pc with
                       edges := (pc, d, .BranchTaken) :: cfg.edges }
                     d (symPop (symPop (blockOutStack code pc stk)).2).2
               | .Unknown =>
                   .ok { afterBlock code cfg pc with unresolved := pc :: cfg.unresolved })
            with
            | .error e => .error e
            | .ok cfg2 =>
                recoverAux code fuel
                  { cfg2 with edges := (pc, (buildBlock code pc).2.2, .BranchNotTaken) :: cfg2.edges }
                  (buildBlock code pc).2.2
                  (symPop (symPop (blockOutStack code pc stk)).2).2
        | _ => .ok (afterBlock code cfg pc)

/-- Spec §4.3 public operation: `recover(bytecode, entry_offset=0) ->
CFG` (fuel `code.length + 2` suffices: every recursive call has first
recorded a block at a fresh offset, and at most `code.length + 1`
offsets pass the entry check). -/
def recover (code : List Nat) : Except RecoverError Cfg :=
  recoverAux code (code.length + 2) ⟨[], [], []⟩ 0 []

/-! ## Concrete fixtures -/

/-- The runtime code a Solidity `require(false, "x")` failure executes:
store the `Error(string)` selector `0x08c379a0` left-aligned at memory
offset 0, the ABI head (string offset `0x20`) at 4, the string length 1
at `0x24`, the byte `"x"` left-aligned at `0x44`, and revert with the
100-byte buffer `[0, 0x64)`. -/
def requireCode : List Nat :=
  [0x7f, 0x08, 0xc3, 0x79, 0xa0] ++ List.replicate 28 0
  ++ [0x60, 0x00, 0x52]
  ++ [0x60, 0x20, 0x60, 0x04, 0x52]
  ++ [0x60, 0x01, 0x60, 0x24, 0x52]
  ++ [0x7f, 0x78] ++ List.replicate 31 0
  ++ [0x60, 0x44, 0x52]
  ++ [0x60, 0x64, 0x60, 0x00, 0xfd]

/-- A call executing `requireCode` with ample gas. -/
def requireCall : CallInfo :=
  { sender := 0, address := 0, callValue := 0, initialGas := 600, input := [],
    code := requireCode }

/-- A call that makes one `SSTORE(0, 1)` write and then executes the
undefined opcode `0xef`. -/
def haltCall : CallInfo :=
  { sender := 0, address := 0, callValue := 0, initialGas := 6000, input := [],
    code := [0x60, 0x01, 0x60, 0x00, 0x55, 0xef] }

/-- Context for `haltCall` over a provider whose every slot holds 7. -/
def haltCtx : EvalCtx := ⟨fun _ => 7, ⟨0⟩, ⟨0, 0⟩, haltCall⟩

/-- Probe one arithmetic opcode: execute `b` on the stack `[x, y]`
(`x` on top) and report the top of the resulting stack. -/
def arithStep (b x y : Nat) : Option Nat :=
  match step ⟨fun _ => 0, ⟨0⟩, ⟨0, 0⟩,
      { sender := 0, address := 0, callValue := 0, initialGas := 100, input := [],
        code := [b] }⟩ ⟨⟨[x, y], [], 0, []⟩, 100⟩ with
  | .next st => st.m.stack.head?
  | .done _ _ => none

/-- `PUSH1 0x05; PUSH1 0x10; ADD; JUMP`. -/
def cfgAddJump : List Nat := [0x60, 0x05, 0x60, 0x10, 0x01, 0x56]

/-- `PUSH1 0x05; JUMP`, padded so that offset 5 holds the byte `b`
followed by a `STOP`. -/
def cfgPushJump (b : Nat) : List Nat := [0x60, 0x05, 0x56, 0x00, 0x00, b, 0x00]

/-! ## Whitespace is never stripped by the decoding paths -/

theorem parseHexDigits_of_space (l : List Char) :
    ∀ acc : Nat, ' ' ∈ l → parseHexDigits l acc = none := by
  induction l with
  | nil => intro acc h; cases h
  | cons c cs ih =>
      intro acc h
      rcases List.mem_cons.mp h with h1 | h2
      · have hc : hexDigit? c = none := by rw [← h1]; decide
        simp [parseHexDigits, hc]
      · cases hc : hexDigit? c with
        | none => simp [parseHexDigits, hc]
        | some d => simp [parseHexDigits, hc, ih _ h2]

theorem hexDecodeChars_of_space :
    ∀ (n : Nat) (s : List Char), s.length ≤ n → ' ' ∈ s → hexDecodeChars s = none := by
  intro n
  induction n with
  | zero =>
      intro s hl h
      cases s with
      | nil => cases h
      | cons c t => simp at hl
  | succ n ih =>
      intro s hl h
      match s with
      | [] => cases h
      | [c] => rfl
      | c1 :: c2 :: rest =>
          rcases List.mem_cons.mp h with h1 | h'
          · have hc : hexDigit? c1 = none := by rw [← h1]; decide
            simp [hexDecodeChars, hc]
          · rcases List.mem_cons.mp h' with h2 | h3
            · have hc : hexDigit? c2 = none := by rw [← h2]; decide
              cases hc1 : hexDigit? c1 <;> simp [hexDecodeChars, hc1, hc]
            · have hrest : hexDecodeChars rest = none := by
                refine ih rest ?_ h3
                simp at hl
                omega
              cases hc1 : hexDigit? c1 <;> cases hc2 : hexDigit? c2 <;>
                simp [hexDecodeChars, hc1, hc2, hrest]

theorem mem_strip0x {c : Char} {s : List Char}
    (h : c ∈ s) (h0 : c ≠ '0') (hx : c ≠ 'x') : c ∈ strip0x s := by
  unfold strip0x
  split
  · rcases List.mem_cons.mp h with h1 | h'
    · exact absurd h1 h0
    · rcases List.mem_cons.mp h' with h2 | h3
      · exact absurd h2 hx
      · exact h3
  · exact h

theorem fromStrRadix16u64_of_space :
    ∀ s : List Char, ' ' ∈ s → ∃ e, fromStrRadix16u64 s = .error e := by
  intro s h
  match s with
  | [] => cases h
  | c :: rest =>
      by_cases hp : c = '+'
      · subst hp
        have hr : ' ' ∈ rest := by
          rcases List.mem_cons.mp h with h1 | h2
          · exact absurd h1 (by decide)
          · exact h2
        match rest with
        | [] => cases hr
        | c2 :: rest2 =>
            exact ⟨.invalidDigit, by
              simp [fromStrRadix16u64, parseHexDigits_of_space _ _ hr]⟩
      · by_cases hm : c = '-'
        · subst hm
          have hr : ' ' ∈ rest := by
            rcases List.mem_cons.mp h with h1 | h2
            · exact absurd h1 (by decide)
            · exact h2
          match rest with
          | [] => cases hr
          | c2 :: rest2 =>
              exact ⟨.invalidDigit, by
                simp [fromStrRadix16u64, parseHexDigits_of_space _ _ hr]⟩
        · exact ⟨.invalidDigit, by
            simp [fromStrRadix16u64, hp, hm, parseHexDigits_of_space _ _ h]⟩

/-- C1 counterexample: at the explicit input `"12 34"` (and at
`"0x1 2"` for `Hexable::from_hex`, and at a request whose `data` is
`"0x12 34"` for the `eth_sendTransaction` path), decoding a hex string
with interior whitespace does not succeed with the whitespace-stripped
bytes: `hex::decode` fails (so the handler's `unwrap` panics) and
`u64::from_hex` returns an error, while the stripped strings decode
fine. -/
theorem whitespace_not_stripped_cex :
    hexDecode "12 34" = none
    ∧ hexDecode "1234" = some [0x12, 0x34]
    ∧ u64fromHex "0x1 2".data = .error .invalidDigit
    ∧ u64fromHex "0x12".data = .ok 0x12
    ∧ ethSendTransaction
        (.array [.obj [(['d', 'a', 't', 'a'], .str "0x12 34".data)]]) = .panicked
    ∧ ethSendTransaction
        (.array [.obj [(['d', 'a', 't', 'a'], .str "0x1234".data)]]) = .decoded [0x12, 0x34] := by
  refine ⟨by decide, by decide, by decide, by decide, by decide, by decide⟩

/-- C1 amended: whitespace inside a hex literal is NOT stripped by the
bytecode-input decoding paths; a hex string containing whitespace fails
to decode — `hexDecodeChars` returns `none` (so the
`eth_sendTransaction` handler panics on its `unwrap`) and the
`u64` `Hexable::from_hex` returns `Err`. -/
theorem whitespace_fails_decode :
    (∀ s : List Char, ' ' ∈ s →
        hexDecodeChars s = none ∧ ∃ e, u64fromHex s = .error e)
    ∧ (∀ fields js s2, objIndex fields ['d', 'a', 't', 'a'] = .str s2 →
        ' ' ∈ s2.drop 2 →
        ethSendTransaction (.array (.obj fields :: js)) = .panicked) := by
  constructor
  · intro s h
    refine ⟨hexDecodeChars_of_space s.length s le_rfl h, ?_⟩
    exact fromStrRadix16u64_of_space _ (mem_strip0x h (by decide) (by decide))
  · intro fields js s2 hd hsp
    have hdec : hexDecodeChars (s2.drop 2) = none :=
      hexDecodeChars_of_space _ _ le_rfl hsp
    by_cases hl : s2.length < 2
    · simp [ethSendTransaction, hd, hl]
    · simp [ethSendTransaction, hd, hl, hdec]

/-- C1 amended witness: the amended statement at the concrete inputs
`"1 2"` and a request with data `"0x1 2"`. -/
theorem whitespace_fails_decode_w :
    (hexDecodeChars "1 2".data = none ∧ ∃ e, u64fromHex "1 2".data = .error e)
    ∧ ethSendTransaction
        (.array [.obj [(['d', 'a', 't', 'a'], .str "0x1 2".data)]]) = .panicked := by
  constructor
  · exact whitespace_fails_decode.1 "1 2".data (by decide)
  · exact whitespace_fails_decode.2 [(['d', 'a', 't', 'a'], .str "0x1 2".data)] []
      "0x1 2".data rfl (by decide)

/-- C9: the `U256` `Hexable::from_hex` implementation wraps the
(total) dependency parse in `Ok` and has no `Err` path, so it returns
`Ok` on every input string; the `u64` implementation by contrast
returns `Err` on malformed input such as `"zz"`. -/
theorem u256fromHex_always_ok :
    (∀ s : List Char, ∃ v, u256fromHex s = .ok v)
    ∧ u64fromHex ['z', 'z'] = .error .invalidDigit := by
  exact ⟨fun s => ⟨_, rfl⟩, by decide⟩

/-- C10: the `eth_sendTransaction` handler panics (rather than
returning a JSON-RPC error) whenever the params are not an array, the
first element is not an object, the object's `data` field is not a
string, or the data string after its first two characters is not valid
hex. -/
theorem ethSendTransaction_panics :
    (∀ fields, ethSendTransaction (.map fields) = .panicked)
    ∧ ethSendTransaction .none = .panicked
    ∧ (∀ j js, (∀ fields, j ≠ .obj fields) →
        ethSendTransaction (.array (j :: js)) = .panicked)
    ∧ (∀ fields js, (∀ s2, objIndex fields ['d', 'a', 't', 'a'] ≠ .str s2) →
        ethSendTransaction (.array (.obj fields :: js)) = .panicked)
    ∧ (∀ fields js s2, objIndex fields ['d', 'a', 't', 'a'] = .str s2 →
        hexDecodeChars (s2.drop 2) = none →
        ethSendTransaction (.array (.obj fields :: js)) = .panicked) := by
  refine ⟨fun _ => rfl, rfl, ?_, ?_, ?_⟩
  · intro j js h
    cases j <;> first | rfl | exact absurd rfl (h _)
  · intro fields js h
    cases hd : objIndex fields ['d', 'a', 't', 'a'] <;>
      first
        | exact absurd hd (h _)
        | simp [ethSendTransaction, hd]
  · intro fields js s2 hd hdec
    by_cases hl : s2.length < 2
    · simp [ethSendTransaction, hd, hl]
    · simp [ethSendTransaction, hd, hl, hdec]

/-- C10 witness: the four malformed shapes at concrete requests. -/
theorem ethSendTransaction_panics_w :
    ethSendTransaction (.map []) = .panicked
    ∧ ethSendTransaction (.array [.num 3]) = .panicked
    ∧ ethSendTransaction (.array [.obj [(['d', 'a', 't', 'a'], .num 1)]]) = .panicked
    ∧ ethSendTransaction
        (.array [.obj [(['d', 'a', 't', 'a'], .str "0xzz".data)]]) = .panicked := by
  refine ⟨ethSendTransaction_panics.1 [], ?_, ?_, ?_⟩
  · exact ethSendTransaction_panics.2.2.1 (.num 3) [] (fun _ h => Json.noConfusion h)
  · exact ethSendTransaction_panics.2.2.2.1 [(['d', 'a', 't', 'a'], .num 1)] []
      (fun _ h => Json.noConfusion h)
  · exact ethSendTransaction_panics.2.2.2.2 [(['d', 'a', 't', 'a'], .str "0xzz".data)] []
      "0xzz".data rfl (by decide)

/-! ## Hex serialization round-trips -/

theorem hexDigit?_hexChar : ∀ d : Nat, d < 16 → hexDigit? (hexChar d) = some d := by
  decide

theorem hexChar_ne_sign : ∀ d : Nat, d < 16 → hexChar d ≠ '+' ∧ hexChar d ≠ '-' := by
  decide

theorem hexChar_eq_zero : ∀ d : Nat, d < 16 → (hexChar d = '0' ↔ d = 0) := by
  decide

theorem parseHexDigits_map (l : List Nat) :
    ∀ acc : Nat, (∀ d ∈ l, d < 16) →
      parseHexDigits (l.map hexChar) acc = some (l.foldl (fun a d => a * 16 + d) acc) := by
  induction l with
  | nil => intro acc _; rfl
  | cons d ds ih =>
      intro acc hall
      have hd : d < 16 := hall d (List.mem_cons_self d ds)
      simp only [List.map_cons, parseHexDigits, hexDigit?_hexChar d hd, List.foldl_cons]
      exact ih _ (fun x hx => hall x (List.mem_cons_of_mem d hx))

theorem foldlHex_map (l : List Nat) :
    ∀ acc : Nat, (∀ d ∈ l, d < 16) →
      (l.map hexChar).foldl (fun a c => a * 16 + (hexDigit? c).getD 0) acc
        = l.foldl (fun a d => a * 16 + d) acc := by
  induction l with
  | nil => intro acc _; rfl
  | cons d ds ih =>
      intro acc hall
      have hd : d < 16 := hall d (List.mem_cons_self d ds)
      simp only [List.map_cons, List.foldl_cons, hexDigit?_hexChar d hd, Option.getD_some]
      exact ih _ (fun x hx => hall x (List.mem_cons_of_mem d hx))

theorem foldl_reverse_digits (l : List Nat) :
    ∀ acc : Nat,
      l.reverse.foldl (fun a d => a * 16 + d) acc = acc * 16 ^ l.length + Nat.ofDigits 16 l := by
  induction l with
  | nil => intro acc; simp
  | cons d ds ih =>
      intro acc
      simp only [List.reverse_cons, List.foldl_append, List.foldl_cons, List.foldl_nil, ih,
        Nat.ofDigits_cons, List.length_cons, pow_succ]
      ring

theorem digits16_lt (x : Nat) : ∀ d ∈ (Nat.digits 16 x).reverse, d < 16 := by
  intro d hd
  exact Nat.digits_lt_base (by norm_num) (List.mem_reverse.mp hd)

theorem parse_hexRepr (x : Nat) : parseHexDigits (hexRepr x) 0 = some x := by
  unfold hexRepr
  by_cases hx : x = 0
  · simp [hx]; rfl
  · simp only [hx, if_false]
    rw [parseHexDigits_map _ 0 (fun d hd => digits16_lt x d hd)]
    rw [foldl_reverse_digits]
    simp [Nat.ofDigits_digits]

theorem hexRepr_chars (x : Nat) : ∀ c ∈ hexRepr x, ∃ d, d < 16 ∧ c = hexChar d := by
  intro c hc
  unfold hexRepr at hc
  by_cases hx : x = 0
  · simp [hx] at hc
    exact ⟨0, by norm_num, by rw [hc]; rfl⟩
  · simp only [hx, if_false] at hc
    obtain ⟨d, hd, hcd⟩ := List.mem_map.mp hc
    exact ⟨d, digits16_lt x d hd, hcd.symm⟩

theorem hexRepr_ne_nil (x : Nat) : hexRepr x ≠ [] := by
  unfold hexRepr
  by_cases hx : x = 0
  · simp [hx]
  · simp [hx, Nat.digits_ne_nil_iff_ne_zero]

theorem u64_roundtrip (x : Nat) (h : x < 2 ^ 64) : u64fromHex (u64toHex x) = .ok x := by
  by_cases hx : x = 0
  · subst hx; decide
  · obtain ⟨c, t, hct⟩ := List.exists_cons_of_ne_nil (hexRepr_ne_nil x)
    obtain ⟨d, hd16, rfl⟩ :=
      hexRepr_chars x c (by rw [hct]; exact List.mem_cons_self c t)
    have hplus : hexChar d ≠ '+' := (hexChar_ne_sign d hd16).1
    have hminus : hexChar d ≠ '-' := (hexChar_ne_sign d hd16).2
    have hparse : parseHexDigits (hexChar d :: t) 0 = some x := by
      rw [← hct]; exact parse_hexRepr x
    show u64fromHex ('0' :: 'x' :: hexRepr x) = .ok x
    have hstrip : strip0x ('0' :: 'x' :: hexRepr x) = hexRepr x := rfl
    rw [u64fromHex, hstrip, hct]
    simp [fromStrRadix16u64, hplus, hminus, hparse]
    exact h

theorem dropWhile_replicate_append (p : Char → Bool) (a : Char) (h : p a = true) :
    ∀ (n : Nat) (l : List Char),
      List.dropWhile p (List.replicate n a ++ l) = List.dropWhile p l := by
  intro n
  induction n with
  | zero => intro l; rfl
  | succ n ih => intro l; simp [List.replicate_succ, List.dropWhile_cons, h, ih l]

theorem hexRepr_head_ne_zero (x : Nat) (hx : x ≠ 0) :
    ∃ c t, hexRepr x = c :: t ∧ c ≠ '0' := by
  obtain ⟨c, t, hct⟩ := List.exists_cons_of_ne_nil (hexRepr_ne_nil x)
  refine ⟨c, t, hct, ?_⟩
  have hrev : hexRepr x = (Nat.digits 16 x).reverse.map hexChar := by
    unfold hexRepr; simp [hx]
  have hdig : Nat.digits 16 x ≠ [] := Nat.digits_ne_nil_iff_ne_zero.mpr hx
  obtain ⟨d, ds, hds⟩ :
      ∃ d ds, (Nat.digits 16 x).reverse = d :: ds :=
    List.exists_cons_of_ne_nil (by simpa [List.reverse_eq_nil_iff] using hdig)
  have hcd : c = hexChar d := by
    rw [hrev, hds] at hct
    exact (List.cons.injEq _ _ _ _ ▸ hct).1.symm
  have hd16 : d < 16 := digits16_lt x d (by rw [hds]; exact List.mem_cons_self d ds)
  have hdlast : (Nat.digits 16 x).getLast? = some d := by
    rw [← List.head?_reverse, hds]; rfl
  have hdne : d ≠ 0 := by
    intro hd0
    rw [List.getLast?_eq_getLast _ hdig] at hdlast
    have hlast_eq : (Nat.digits 16 x).getLast hdig = d := Option.some_inj.mp hdlast
    exact Nat.getLast_digit_ne_zero 16 hx (hlast_eq.trans hd0)
  rw [hcd]
  intro hzero
  exact hdne ((hexChar_eq_zero d hd16).mp hzero)

theorem u256_roundtrip (x : Nat) (h : x < 2 ^ 256) : u256fromHex (u256toHex x) = .ok x := by
  by_cases hx : x = 0
  · subst hx; decide
  · obtain ⟨c, t, hct, hc0⟩ := hexRepr_head_ne_zero x hx
    have htrim :
        List.dropWhile (fun a => a = '0')
          (List.replicate (64 - (hexRepr x).length) '0' ++ hexRepr x) = hexRepr x := by
      rw [dropWhile_replicate_append _ '0' (by decide), hct]
      simp [List.dropWhile_cons, hc0]
    have hhex : u256toHex x = '0' :: 'x' :: hexRepr x := by
      unfold u256toHex u256toHexString
      simp only [List.drop_succ_cons, List.drop_zero, htrim]
      rw [hct]
      simp
    rw [hhex]
    have hstrip : strip0x ('0' :: 'x' :: hexRepr x) = hexRepr x := rfl
    rw [u256fromHex, hstrip]
    have hfold :
        u256fromHexStr (hexRepr x) = x := by
      unfold u256fromHexStr hexRepr
      simp only [hx, if_false]
      rw [foldlHex_map _ 0 (fun d hd => digits16_lt x d hd), foldl_reverse_digits]
      simp only [Nat.zero_mul, Nat.zero_add, Nat.ofDigits_digits]
      exact Nat.mod_eq_of_lt h
    rw [hfold]

/-- C8: hex serialization round-trips — for every `u64` value and every
`U256` value, `Hexable::from_hex (Hexable::to_hex x) = Ok x` (and hence
the serde `Hex<T>` wrapper, which serializes via `to_hex` and
deserializes via `from_hex`, round-trips). -/
theorem hex_roundtrip (x : Nat) :
    (x < 2 ^ 64 → u64fromHex (u64toHex x) = .ok x)
    ∧ (x < 2 ^ 256 → u256fromHex (u256toHex x) = .ok x) :=
  ⟨u64_roundtrip x, u256_roundtrip x⟩

/-- C8 witness: the round-trip at the concrete value 300 (`"0x12c"`). -/
theorem hex_roundtrip_w :
    u64fromHex (u64toHex 300) = .ok 300 ∧ u256fromHex (u256toHex 300) = .ok 300 :=
  ⟨(hex_roundtrip 300).1 (by norm_num), (hex_roundtrip 300).2 (by norm_num)⟩

/-! ## Interpreter result shape and arithmetic -/

/-- C3: every invocation of `evaluate` yields an `ExecutionResult`
that is one of `Return(bytes)`, `Revert(bytes)` or `Halt(kind)`;
`evaluate` is a total function into this closed variant type, so revert
and halt are delivered as ordinary result variants the caller matches
on, never via an exception-like mechanism. -/
theorem evaluate_result_variants (sp : Nat → Nat) (bi : BlockInfo)
    (ti : TransactionInfo) (ci : CallInfo) :
    (∃ bs, evaluate sp bi ti ci = .Return bs)
    ∨ (∃ bs, evaluate sp bi ti ci = .Revert bs)
    ∨ (∃ k, evaluate sp bi ti ci = .Halt k) := by
  cases h : evaluate sp bi ti ci with
  | Return bs => exact .inl ⟨bs, rfl⟩
  | Revert bs => exact .inr (.inl ⟨bs, rfl⟩)
  | Halt k => exact .inr (.inr ⟨k, rfl⟩)

/-- C4: the interpreter's arithmetic opcodes compute modulo `2 ^ 256`
with full wraparound and treat a zero divisor as yielding zero:
`ADD` pushes `(x + y) % 2^256` (so `ADD(2^256−1, 1) = 0`), `SUB` pushes
the wrapped difference (so `SUB(0, 1) = 2^256−1`), and for every `x`,
`DIV(x, 0) = 0` and `MOD(x, 0) = 0`. -/
theorem arithmetic_wraparound (x y : Nat) (hx : x < WORD) (hy : y < WORD) :
    arithStep 0x01 x y = some ((x + y) % WORD)
    ∧ arithStep 0x03 x y = some ((WORD + x - y) % WORD)
    ∧ arithStep 0x04 x 0 = some 0
    ∧ arithStep 0x06 x 0 = some 0
    ∧ arithStep 0x01 (WORD - 1) 1 = some 0
    ∧ arithStep 0x03 0 1 = some (WORD - 1) := by
  refine ⟨rfl, rfl, rfl, rfl, ?_, ?_⟩
  · have h1 : (WORD - 1 + 1) % WORD = 0 := by
      have hpos : 0 < WORD := by norm_num [WORD]
      have : WORD - 1 + 1 = WORD := by omega
      rw [this, Nat.mod_self]
    calc arithStep 0x01 (WORD - 1) 1 = some ((WORD - 1 + 1) % WORD) := rfl
      _ = some 0 := by rw [h1]
  · have h1 : (WORD + 0 - 1) % WORD = WORD - 1 := by
      have hpos : 0 < WORD := by norm_num [WORD]
      rw [Nat.add_zero]
      exact Nat.mod_eq_of_lt (Nat.sub_lt hpos Nat.one_pos)
    calc arithStep 0x03 0 1 = some ((WORD + 0 - 1) % WORD) := rfl
      _ = some (WORD - 1) := by rw [h1]

/-- C4 witness: the arithmetic opcodes at small concrete words. -/
theorem arithmetic_wraparound_w :
    arithStep 0x01 2 3 = some 5 ∧ arithStep 0x04 2 0 = some 0 := by
  have h := arithmetic_wraparound 2 3 (by norm_num [WORD]) (by norm_num [WORD])
  refine ⟨?_, h.2.2.1⟩
  rw [h.1]
  norm_num [WORD]

/-! ## Revert payload integrity -/

theorem listRead_take (l : List Nat) (off : Nat) {k n : Nat} (h : k ≤ n) :
    (listRead l off n).take k = listRead l off k := by
  unfold listRead
  rw [← List.map_take, List.take_range, Nat.min_eq_left h]

theorem execOp_revert (ctx : EvalCtx) (g : Nat) (m : Machine) (off sz : Nat)
    (rest : List Nat) (h : m.stack = off :: sz :: rest) :
    execOp ctx 0xfd g m = .done (.Revert (listRead m.mem off sz)) m := by
  simp [execOp, h]

theorem step_revert (ctx : EvalCtx) (st : MState) (off sz : Nat) (rest : List Nat)
    (hfetch : fetchOp ctx st = some 0xfd)
    (hstk : st.m.stack = off :: sz :: rest)
    (hrest : rest.length ≤ 1024) :
    step ctx st = .done (.Revert (listRead st.m.mem off sz)) ⟨st.m, st.gas⟩ := by
  have hlen : st.m.stack.length = rest.length + 2 := by rw [hstk]; simp
  have harity : interpArity 0xfd = some (2, 0) := by decide
  have hgas : ¬ st.gas < gasCost 0xfd := by
    have : gasCost 0xfd = 0 := by decide
    omega
  have hunder : ¬ st.m.stack.length < 2 := by omega
  have hover : ¬ st.m.stack.length - 2 + 0 > 1024 := by omega
  have hspent : st.gas - gasCost 0xfd = st.gas := by
    have : gasCost 0xfd = 0 := by decide
    omega
  simp only [step, hfetch, harity, if_neg hgas, hspent, if_neg hunder, if_neg hover,
    execOp_revert ctx st.gas st.m off sz rest hstk]

set_option maxRecDepth 100000 in
/-- C2: revert payload integrity.  Whenever a frame's next instruction
is `REVERT` over a memory buffer whose first four bytes are the
`Error(string)` selector `0x08c379a0` — the state a Solidity-style
`require` failure reaches after ABI-encoding its message — the frame's
result is `Revert(bytes)` with those selector bytes first; in
particular `evaluate` on the `require(false, "x")` bytecode
`requireCode` returns `Revert` bytes beginning with `0x08c379a0`. -/
theorem require_revert_selector :
    (∀ (ctx : EvalCtx) (st : MState) (fuel off sz : Nat) (rest : List Nat),
        fetchOp ctx st = some 0xfd →
        st.m.stack = off :: sz :: rest →
        rest.length ≤ 1024 →
        4 ≤ sz →
        listRead st.m.mem off 4 = [0x08, 0xc3, 0x79, 0xa0] →
        ∃ bs st2, runFrame ctx (fuel + 1) st = some (.Revert bs, st2)
          ∧ bs.take 4 = [0x08, 0xc3, 0x79, 0xa0])
    ∧ (∃ bs, evaluate (fun _ => 0) ⟨0⟩ ⟨0, 0⟩ requireCall = .Revert bs
        ∧ bs.take 4 = [0x08, 0xc3, 0x79, 0xa0]) := by
  constructor
  · intro ctx st fuel off sz rest hfetch hstk hrest hsz hmem
    refine ⟨listRead st.m.mem off sz, ⟨st.m, st.gas⟩, ?_, ?_⟩
    · simp [runFrame, step_revert ctx st off sz rest hfetch hstk hrest]
    · rw [listRead_take st.m.mem off hsz, hmem]
  · refine ⟨[0x08, 0xc3, 0x79, 0xa0] ++ List.replicate 31 0 ++ [0x20]
        ++ List.replicate 31 0 ++ [0x01] ++ [0x78] ++ List.replicate 31 0, ?_, ?_⟩
    · decide
    · decide

/-- C2 witness: the general payload-integrity statement applied to a
concrete frame about to execute `REVERT` over a buffer carrying the
selector. -/
theorem require_revert_selector_w :
    ∃ bs st2,
      runFrame ⟨fun _ => 0, ⟨0⟩, ⟨0, 0⟩,
          { sender := 0, address := 0, callValue := 0, initialGas := 10, input := [],
            code := [0xfd] }⟩ 1
        ⟨⟨[0, 4], [0x08, 0xc3, 0x79, 0xa0, 0, 0, 0, 0], 0, []⟩, 10⟩
        = some (.Revert bs, st2)
      ∧ bs.take 4 = [0x08, 0xc3, 0x79, 0xa0] := by
  exact require_revert_selector.1 _ _ 0 0 4 [] rfl rfl (by decide) (by decide) (by decide)

/-! ## Exceptional halts: overlay discard and gas accounting -/

/-- Gas remaining in the state a step result carries. -/
def gasOf : StepOut → Nat
  | .next st => st.gas
  | .done _ st => st.gas

theorem step_gas (ctx : EvalCtx) (st : MState) : gasOf (step ctx st) ≤ st.gas := by
  unfold step
  split
  · simp [gasOf]
  · split
    · simp [gasOf]
    · split
      · simp [gasOf]
      · split
        · simp [gasOf, Nat.sub_le]
        · split
          · simp [gasOf, Nat.sub_le]
          · split
            · simp [gasOf, Nat.sub_le]
            · simp [gasOf, Nat.sub_le]

theorem runFrame_gas (ctx : EvalCtx) :
    ∀ (fuel : Nat) (st : MState) (res : ExecutionResult) (st2 : MState),
      runFrame ctx fuel st = some (res, st2) → st2.gas ≤ st.gas := by
  intro fuel
  induction fuel with
  | zero => intro st res st2 h; simp [runFrame] at h
  | succ n ih =>
      intro st res st2 h
      rw [runFrame] at h
      cases hs : step ctx st with
      | done r st3 =>
          rw [hs] at h
          have hgas := step_gas ctx st
          rw [hs] at hgas
          cases h
          exact hgas
      | next st3 =>
          rw [hs] at h
          have hgas := step_gas ctx st
          rw [hs] at hgas
          exact le_trans (ih st3 res st2 h) hgas

/-- C5: a frame that terminates exceptionally ends as
`Halt(FailureKind)` with its overlay writes discarded and its spent gas
not refunded: (1) whenever a run ends in `Halt k`, the observable
storage equals the provider's (no `SSTORE` survives) and the remaining
gas never exceeds what the frame started with; and each exceptional
condition produces its halt: (2) an undefined opcode halts with
`InvalidOpcode`, (3) insufficient gas halts with `OutOfGas` before the
opcode's effect, (4) a too-short stack halts with `StackUnderflow`,
(5) growth past 1024 halts with `StackOverflow`, and (6) a `JUMP` to a
non-JUMPDEST halts with `InvalidJump`. -/
theorem halt_discards_and_keeps_gas :
    (∀ (ctx : EvalCtx) (fuel : Nat) (st st2 : MState) (res : ExecutionResult),
        runFrame ctx fuel st = some (res, st2) →
        ∀ k, res = .Halt k →
          commit ctx res st2 = ctx.storage ∧ st2.gas ≤ st.gas)
    ∧ (∀ (ctx : EvalCtx) (st : MState) (b : Nat),
        fetchOp ctx st = some b → interpArity b = none →
        step ctx st = .done (.Halt .InvalidOpcode) st)
    ∧ (∀ (ctx : EvalCtx) (st : MState) (b : Nat) (io : Nat × Nat),
        fetchOp ctx st = some b → interpArity b = some io →
        st.gas < gasCost b →
        step ctx st = .done (.Halt .OutOfGas) st)
    ∧ (∀ (ctx : EvalCtx) (st : MState) (b : Nat) (io : Nat × Nat),
        fetchOp ctx st = some b → interpArity b = some io →
        ¬ st.gas < gasCost b → st.m.stack.length < io.1 →
        step ctx st = .done (.Halt .StackUnderflow) ⟨st.m, st.gas - gasCost b⟩)
    ∧ (∀ (ctx : EvalCtx) (st : MState) (b : Nat) (io : Nat × Nat),
        fetchOp ctx st = some b → interpArity b = some io →
        ¬ st.gas < gasCost b → ¬ st.m.stack.length < io.1 →
        st.m.stack.length - io.1 + io.2 > 1024 →
        step ctx st = .done (.Halt .StackOverflow) ⟨st.m, st.gas - gasCost b⟩)
    ∧ (∀ (ctx : EvalCtx) (st : MState) (d : Nat) (rest : List Nat),
        fetchOp ctx st = some 0x56 → st.m.stack = d :: rest →
        gasCost 0x56 ≤ st.gas → rest.length ≤ 1024 →
        ctx.call.code.get? d ≠ some 0x5b →
        step ctx st = .done (.Halt .InvalidJump)
          ⟨{ st.m with stack := rest }, st.gas - gasCost 0x56⟩) := by
  refine ⟨?_, ?_, ?_, ?_, ?_, ?_⟩
  · intro ctx fuel st st2 res h k hres
    subst hres
    exact ⟨rfl, runFrame_gas ctx fuel st _ st2 h⟩
  · intro ctx st b hf ha
    simp [step, hf, ha]
  · intro ctx st b io hf ha hg
    simp [step, hf, ha, hg]
  · intro ctx st b io hf ha hg hu
    simp [step, hf, ha, hg, hu]
  · intro ctx st b io hf ha hg hu ho
    simp [step, hf, ha, hg, hu, ho]
  · intro ctx st d rest hf hstk hg hrest hdest
    have harity : interpArity 0x56 = some (1, 0) := by decide
    have hlen : st.m.stack.length = rest.length + 1 := by rw [hstk]; simp
    have hgas : ¬ st.gas < gasCost 0x56 := by omega
    have hunder : ¬ st.m.stack.length < 1 := by omega
    have hover : ¬ st.m.stack.length - 1 + 0 > 1024 := by omega
    have hdest2 : ¬ ctx.call.code[d]? = some 0x5b := by simpa using hdest
    have hexec : execOp ctx 0x56 (st.gas - gasCost 0x56) st.m
        = .done (.Halt .InvalidJump) { st.m with stack := rest } := by
      simp [execOp, hstk, hdest2]
    simp only [step, hf, harity, if_neg hgas, if_neg hunder, if_neg hover, hexec]

/-- C5 witness: the concrete frame `haltCall` (one `SSTORE(0, 1)`
followed by the undefined byte `0xef`) over a provider whose slots all
hold 7: the run halts with `InvalidOpcode`, the observable storage is
the provider's own, and the gas spent stays spent. -/
theorem halt_discards_and_keeps_gas_w :
    ∃ st2, runFrame haltCtx 6001 (initState haltCtx) = some (.Halt .InvalidOpcode, st2)
      ∧ commit haltCtx (.Halt .InvalidOpcode) st2 = haltCtx.storage
      ∧ st2.gas ≤ (initState haltCtx).gas := by
  have hrun : runFrame haltCtx 6001 (initState haltCtx)
      = some (.Halt .InvalidOpcode, ⟨⟨[], [], 5, [(0, 1)]⟩, 994⟩) := by decide
  have h := halt_discards_and_keeps_gas.1 haltCtx 6001 (initState haltCtx)
    ⟨⟨[], [], 5, [(0, 1)]⟩, 994⟩ (.Halt .InvalidOpcode) hrun .InvalidOpcode rfl
  exact ⟨⟨⟨[], [], 5, [(0, 1)]⟩, 994⟩, hrun, h.1, h.2⟩

/-! ## CFG recovery: jump resolution -/

set_option maxRecDepth 100000 in
theorem cfgPushJump_not_jumpdest :
    ∀ bf : Fin 256, bf.val = 0x5b ∨ recover (cfgPushJump bf.val) = .error .InvalidJump := by
  decide

set_option maxRecDepth 100000 in
/-- C6: on `PUSH1 0x05; PUSH1 0x10; ADD; JUMP` from an empty incoming
stack, recovery marks the jump unresolved (ADD pushes Unknown) and
resolves no edge; on `PUSH1 0x05; JUMP` (padded so offset 5 holds the
byte `b`), recovery resolves the jump edge to offset 5 when byte 5 is
JUMPDEST, and fails with `InvalidJump` for every other byte value. -/
theorem cfg_jump_resolution :
    (∃ cfg, recover cfgAddJump = .ok cfg ∧ cfg.unresolved = [0] ∧ cfg.edges = [])
    ∧ (∀ b : Nat, b < 256 →
        (b = 0x5b → ∃ cfg, recover (cfgPushJump b) = .ok cfg
            ∧ (0, 5, EdgeKind.Unconditional) ∈ cfg.edges)
        ∧ (b ≠ 0x5b → recover (cfgPushJump b) = .error .InvalidJump)) := by
  constructor
  · refine ⟨_, rfl, ?_, ?_⟩ <;> decide
  · intro b hb
    constructor
    · intro h5
      subst h5
      refine ⟨_, rfl, ?_⟩
      decide
    · intro hne
      rcases cfgPushJump_not_jumpdest ⟨b, hb⟩ with h | h
      · exact absurd h hne
      · exact h

set_option maxRecDepth 100000 in
/-- C6 witness: the two halves at the concrete bytes `0x5b` (JUMPDEST)
and `0x33` (CALLER). -/
theorem cfg_jump_resolution_w :
    (∃ cfg, recover (cfgPushJump 0x5b) = .ok cfg
        ∧ (0, 5, EdgeKind.Unconditional) ∈ cfg.edges)
    ∧ recover (cfgPushJump 0x33) = .error .InvalidJump := by
  exact ⟨(cfg_jump_resolution.2 0x5b (by norm_num)).1 rfl,
    (cfg_jump_resolution.2 0x33 (by norm_num)).2 (by norm_num)⟩

/-! ## CFG recovery: block-entry invariant -/

theorem buildBlockAux_noMid (code : List Nat) :
    ∀ (fuel pc : Nat), ∀ i ∈ (buildBlockAux code fuel pc false).1, i.opb ≠ 0x5b := by
  intro fuel
  induction fuel with
  | zero => intro pc i hi; simp [buildBlockAux] at hi
  | succ n ih =>
      intro pc i hi
      rw [buildBlockAux] at hi
      cases hget : code.get? pc with
      | none => simp only [hget] at hi; simp at hi
      | some b =>
          simp only [hget] at hi
          by_cases hb : b = 0x5b
          · rw [if_pos ⟨hb, trivial⟩] at hi
            simp at hi
          · rw [if_neg (fun hc => hb hc.1)] at hi
            cases ht : termOf b with
            | some t =>
                simp only [ht] at hi
                simp at hi
                rw [hi]
                exact hb
            | none =>
                simp only [ht] at hi
                simp only [List.mem_cons] at hi
                rcases hi with h1 | h2
                · rw [h1]; exact hb
                · exact ih _ i h2

theorem buildBlockAux_tail (code : List Nat) (fuel pc : Nat) (first : Bool) :
    ∀ i ∈ ((buildBlockAux code fuel pc first).1).tail, i.opb ≠ 0x5b := by
  intro i hi
  cases fuel with
  | zero => simp [buildBlockAux] at hi
  | succ n =>
      rw [buildBlockAux] at hi
      cases hget : code.get? pc with
      | none => simp only [hget] at hi; simp at hi
      | some b =>
          simp only [hget] at hi
          by_cases hstop : b = 0x5b ∧ first = false
          · rw [if_pos hstop] at hi
            simp at hi
          · rw [if_neg hstop] at hi
            cases ht : termOf b with
            | some t => simp only [ht] at hi; simp at hi
            | none =>
                simp only [ht] at hi
                simp only [List.tail_cons] at hi
                exact buildBlockAux_noMid code n _ i hi

theorem buildBlockAux_head (code : List Nat) (n pc b : Nat)
    (hget : code.get? pc = some b) :
    ∃ t, (buildBlockAux code (n + 1) pc true).1
        = ⟨pc, b, immVal code pc (pushLen b)⟩ :: t := by
  rw [buildBlockAux]
  simp only [hget]
  have hstop : ¬ (b = 0x5b ∧ true = false) := by simp
  rw [if_neg hstop]
  cases ht : termOf b with
  | some t => simp only [ht]; exact ⟨[], rfl⟩
  | none => simp only [ht]; exact ⟨_, rfl⟩

theorem recoverAux_wf (code : List Nat) :
    ∀ (fuel : Nat) (cfg : Cfg) (pc : Nat) (stk : SymStack) (cfg2 : Cfg),
      recoverAux code fuel cfg pc stk = .ok cfg2 →
      (∀ blk ∈ cfg.blocks,
          (blk.1 ≠ 0 → (blk.2.1.head?).map Inst.opb = some 0x5b)
          ∧ ∀ i ∈ blk.2.1.tail, i.opb ≠ 0x5b) →
      ∀ blk ∈ cfg2.blocks,
        (blk.1 ≠ 0 → (blk.2.1.head?).map Inst.opb = some 0x5b)
        ∧ ∀ i ∈ blk.2.1.tail, i.opb ≠ 0x5b := by
  intro fuel
  induction fuel with
  | zero =>
      intro cfg pc stk cfg2 h hwf
      rw [recoverAux] at h
      cases h
      exact hwf
  | succ n ih =>
      intro cfg pc stk cfg2 h hwf
      have hnewwf : ∀ blk ∈ (afterBlock code cfg pc).blocks,
          (¬ (pc ≠ 0 ∧ code.get? pc ≠ some 0x5b)) →
          ((blk.1 ≠ 0 → (blk.2.1.head?).map Inst.opb = some 0x5b)
            ∧ ∀ i ∈ blk.2.1.tail, i.opb ≠ 0x5b) := by
        intro blk hblk hjd
        rcases List.mem_cons.mp hblk with hb1 | hb2
        · subst hb1
          constructor
          · intro hpc0
            have hget : code.get? pc = some 0x5b := by
              by_contra hc
              exact hjd ⟨hpc0, hc⟩
            obtain ⟨t, ht⟩ := buildBlockAux_head code code.length pc 0x5b hget
            show (((buildBlockAux code (code.length + 1) pc true).1).head?).map Inst.opb
                = some 0x5b
            rw [ht]
            rfl
          · intro i hi
            exact buildBlockAux_tail code (code.length + 1) pc true i hi
        · exact hwf blk hb2
      rw [recoverAux] at h
      by_cases hvis : cfg.blocks.any (fun blk => blk.1 = pc)
      · rw [if_pos hvis] at h
        cases h
        exact hwf
      · rw [if_neg hvis] at h
        by_cases hjd : pc ≠ 0 ∧ code.get? pc ≠ some 0x5b
        · rw [if_pos hjd] at h
          cases h
        · rw [if_neg hjd] at h
          cases hterm : (buildBlock code pc).2.1 <;> simp only [hterm] at h
          -- Jump
          · cases htgt : (symPop (blockOutStack code pc stk)).1 <;> simp only [htgt] at h
            · exact ih _ _ _ _ h (fun blk hblk => hnewwf blk hblk hjd)
            · cases h
              intro blk hblk
              exact hnewwf blk hblk hjd
          -- JumpI
          · cases htaken :
                (match (symPop (blockOutStack code pc stk)).1 with
                 | .Known d =>
                     recoverAux code n
                       { afterBlock code cfg pc with
                         edges := (pc, d, .BranchTaken) :: cfg.edges }
                       d (symPop (symPop (blockOutStack code pc stk)).2).2
                 | .Unknown =>
                     .ok { afterBlock code cfg pc with
                           unresolved := pc :: cfg.unresolved }) with
            | error e => simp only [htaken] at h; cases h
            | ok cfgMid =>
                simp only [htaken] at h
                have hmid : ∀ blk ∈ cfgMid.blocks,
                    (blk.1 ≠ 0 → (blk.2.1.head?).map Inst.opb = some 0x5b)
                    ∧ ∀ i ∈ blk.2.1.tail, i.opb ≠ 0x5b := by
                  cases htgt : (symPop (blockOutStack code pc stk)).1 <;>
                    simp only [htgt] at htaken
                  · exact ih _ _ _ _ htaken (fun blk hblk => hnewwf blk hblk hjd)
                  · cases htaken
                    intro blk hblk
                    exact hnewwf blk hblk hjd
                exact ih _ _ _ _ h hmid
          -- Stop, Return, Revert, SelfDestruct, InvalidOpcode, FallOff
          all_goals
            cases h
            intro blk hblk
            exact hnewwf blk hblk hjd

/-- C7: every block the CFG recoverer produces satisfies the
block-entry invariant — a block whose start offset is not 0 begins with
a JUMPDEST instruction, and no JUMPDEST occurs at any position of a
block other than the first. -/
theorem recover_block_invariant (code : List Nat) (cfg : Cfg)
    (h : recover code = .ok cfg) :
    ∀ blk ∈ cfg.blocks,
      (blk.1 ≠ 0 → (blk.2.1.head?).map Inst.opb = some 0x5b)
      ∧ ∀ i ∈ blk.2.1.tail, i.opb ≠ 0x5b := by
  exact recoverAux_wf code (code.length + 2) ⟨[], [], []⟩ 0 [] cfg h
    (fun blk hblk => absurd hblk (List.not_mem_nil blk))

/-- C7 witness: the invariant at the block recovered at offset 4 of
`PUSH1 0x04; JUMP; STOP; JUMPDEST; STOP`. -/
theorem recover_block_invariant_w :
    ((4 : Nat) ≠ 0 →
      ((([⟨4, 0x5b, 0⟩, ⟨5, 0x00, 0⟩] : List Inst).head?).map Inst.opb = some 0x5b))
    ∧ ∀ i ∈ ([⟨4, 0x5b, 0⟩, ⟨5, 0x00, 0⟩] : List Inst).tail, i.opb ≠ 0x5b := by
  have h := recover_block_invariant [0x60, 0x04, 0x56, 0x00, 0x5b, 0x00]
    ⟨[(4, [⟨4, 0x5b, 0⟩, ⟨5, 0x00, 0⟩], .Stop),
      (0, [⟨0, 0x60, 4⟩, ⟨2, 0x56, 0⟩], .Jump)],
     [(0, 4, .Unconditional)], []⟩
    (by decide)
    (4, [⟨4, 0x5b, 0⟩, ⟨5, 0x00, 0⟩], .Stop)
    (by decide)
  exact h

end Sutro
